import Mathlib

/-!
Verification of the comment-processing core of `reddit_privacy_script.py`.

The embedding models `process_comments` (the per-comment classification and
mutation logic), and the interactive yes/no interpretation in `main`.
Remote capability calls (`comment.edit`, `comment.delete`) are modelled as
events in a trace; whether a given call raises is modelled by the per-comment
flags `editFails` / `deleteFails` (the remote platform's behaviour towards
that comment, opaque to the core). `time.sleep(1)` is modelled as a `sleep`
event in the same trace.
-/

/-- A comment as the script sees it: `comment.id`, `comment.body`,
`comment.created_utc`, `comment.subreddit`, plus the modelled behaviour of
the remote capability for this comment (`editFails`: `comment.edit` raises;
`deleteFails`: `comment.delete` raises). Timestamps are whole seconds. -/
structure Comment where
  id : String
  body : String
  created_utc : Int
  subreddit : String
  editFails : Bool
  deleteFails : Bool
deriving DecidableEq, Repr

/-- The run configuration: the arguments of `process_comments`
(`edit_text`, `delete_after_edit`, `dry_run`, `days_threshold`). -/
structure Config where
  edit_text : String
  delete_after_edit : Bool
  dry_run : Bool
  days_threshold : Int
deriving DecidableEq, Repr

/-- The five statistics counters of `process_comments`
(lines 46-50 of the source). -/
structure Stats where
  processed : Nat
  edited : Nat
  deleted : Nat
  skipped : Nat
  failed : Nat
deriving DecidableEq, Repr

/-- All counters zero, as initialised at lines 46-50. -/
def Stats.zero : Stats := ⟨0, 0, 0, 0, 0⟩

/-- Componentwise sum of two counter records. -/
def Stats.add (a b : Stats) : Stats :=
  ⟨a.processed + b.processed, a.edited + b.edited, a.deleted + b.deleted,
   a.skipped + b.skipped, a.failed + b.failed⟩

/-- Observable actions of the processor: a call to the edit capability
(carrying the comment id and the replacement text), a call to the delete
capability (carrying the comment id), and a one-second pause
(`time.sleep(1)`). -/
inductive Event where
  | editCall : String → String → Event
  | deleteCall : String → Event
  | sleep : Event
deriving DecidableEq, Repr

/-- Whether an event is a mutating capability call (edit or delete). -/
def Event.isMut : Event → Bool
  | .editCall _ _ => true
  | .deleteCall _ => true
  | .sleep => false

/-- Whether an event is the rate-limit pause. -/
def Event.isSleep : Event → Bool
  | .sleep => true
  | _ => false

/-- The mutating capability calls of a trace, in order. -/
def mutCalls (t : List Event) : List Event := t.filter Event.isMut

/-- The comment's age in whole days, as computed at lines 82-83:
`(datetime.now() - datetime.fromtimestamp(comment.created_utc)).days`.
Python's `timedelta.days` is the floor of the difference in days, hence
`Int.fdiv` by 86400 (the seconds of a day). -/
def ageDays (now created : Int) : Int := (now - created).fdiv 86400

/-- The three classification outcomes of the per-comment decision logic. -/
inductive Classify where
  | scrubbedCleanup : Classify
  | tooRecent : Classify
  | qualified : Classify
deriving DecidableEq, Repr

/-- The classification of one comment, in the priority order of the source:
the body check of line 64 first, then the age check of line 87. -/
def classify (cfg : Config) (now : Int) (c : Comment) : Classify :=
  if c.body = cfg.edit_text then Classify.scrubbedCleanup
  else if ageDays now c.created_utc ≤ cfg.days_threshold then Classify.tooRecent
  else Classify.qualified

/-- One iteration of the loop body of `process_comments` (lines 62-122):
the counter increments and the emitted events for one comment. A raising
capability call still appears in the trace (the call was made); the raise
transfers control to the `except` handler of line 118, which increments
`failed` and moves on. -/
def processComment (cfg : Config) (now : Int) (c : Comment) : Stats × List Event :=
  if c.body = cfg.edit_text then
    if cfg.dry_run then
      (⟨1, 0, 0, 0, 0⟩, [])
    else if c.deleteFails then
      (⟨0, 0, 0, 0, 1⟩, [Event.deleteCall c.id])
    else
      (⟨1, 0, 1, 0, 0⟩, [Event.deleteCall c.id, Event.sleep])
  else if ageDays now c.created_utc ≤ cfg.days_threshold then
    (⟨0, 0, 0, 1, 0⟩, [])
  else if cfg.dry_run then
    (⟨1, 0, 0, 0, 0⟩, [])
  else if c.editFails then
    (⟨0, 0, 0, 0, 1⟩, [Event.editCall c.id cfg.edit_text])
  else if cfg.delete_after_edit then
    if c.deleteFails then
      (⟨0, 1, 0, 0, 1⟩,
       [Event.editCall c.id cfg.edit_text, Event.sleep, Event.deleteCall c.id])
    else
      (⟨1, 1, 1, 0, 0⟩,
       [Event.editCall c.id cfg.edit_text, Event.sleep, Event.deleteCall c.id,
        Event.sleep])
  else
    (⟨1, 1, 0, 0, 0⟩, [Event.editCall c.id cfg.edit_text, Event.sleep])

/-- The loop of lines 61-122 over a list of comments already in processing
order: accumulated counters and concatenated event trace. -/
def processList (cfg : Config) (now : Int) : List Comment → Stats × List Event
  | [] => (Stats.zero, [])
  | c :: rest =>
    let r := processComment cfg now c
    let rr := processList cfg now rest
    (Stats.add r.1 rr.1, r.2 ++ rr.2)

/-- The ordering step of lines 56-57: the fetched list (most-recent-first)
is materialised and reversed, so processing is oldest-first. -/
def processOrder (fetched : List Comment) : List Comment := fetched.reverse

/-- The whole of `process_comments` on a fetched comment list: reverse,
then run the loop. -/
def process_comments (cfg : Config) (now : Int) (fetched : List Comment) :
    Stats × List Event :=
  processList cfg now (processOrder fetched)

/-- The whitespace test of Python's `str.strip()`, restricted to the ASCII
whitespace characters (space, tab, newline, carriage return, vertical tab,
form feed). -/
def isPyWhite (ch : Char) : Bool :=
  ch = ' ' || ch = '\t' || ch = '\n' || ch = '\x0d' || ch = '\x0b'
    || ch = '\x0c'

/-- Python's `s.strip()` on the character sequence of a string: drop
leading and trailing whitespace. -/
def pyStrip (l : List Char) : List Char :=
  ((l.dropWhile isPyWhite).reverse.dropWhile isPyWhite).reverse

/-- Python's `s.lower()` on the character sequence of a string (ASCII). -/
def pyLower (l : List Char) : List Char := l.map Char.toLower

/-- The interpretation of the delete-after-edit prompt answer, lines
166-167 of the source: `input(...).strip().lower() != 'n'`, on the
character sequence of the typed answer. -/
def parseDeleteAfterEdit (delete_input : String) : Bool :=
  pyLower (pyStrip delete_input.data) != ['n']

/-- The interpretation of the dry-run prompt answer, lines 169-170 of the
source: `input(...).strip().lower() != 'n'`, on the character sequence of
the typed answer. -/
def parseDryRun (dry_run_input : String) : Bool :=
  pyLower (pyStrip dry_run_input.data) != ['n']

/-- Whether a trace starts with the rate-limit pause (false on the empty
trace). -/
def nextIsSleep : List Event → Bool
  | e :: _ => e.isSleep
  | [] => false

/-- Whether every mutating call of a trace is immediately followed by the
rate-limit pause. -/
def sleepAfterMut : List Event → Bool
  | [] => true
  | e :: rest => ((!e.isMut) || nextIsSleep rest) && sleepAfterMut rest

/-- Whether a trace is empty or ends with the rate-limit pause. -/
def endsQuiet : List Event → Bool
  | [] => true
  | [e] => e.isSleep
  | _ :: e2 :: rest => endsQuiet (e2 :: rest)

/-- A live configuration used by concrete witnesses: replacement text "F",
delete after edit, not a dry run, threshold 30 days. -/
def cfgLive : Config := ⟨"F", true, false, 30⟩

/-- A dry-run configuration used by concrete witnesses. -/
def cfgDry : Config := ⟨"F", true, true, 30⟩

/-- C1: a comment whose body equals the replacement text is classified as
already-scrubbed regardless of its age (no constraint on `now` or
`created_utc` appears), and in live mode, the delete capability succeeding,
the only mutating call made is delete (no edit call) and the `deleted`
counter is incremented (and `edited` is not). -/
theorem claim_C1 (cfg : Config) (now : Int) (c : Comment)
    (hbody : c.body = cfg.edit_text) (hlive : cfg.dry_run = false)
    (hok : c.deleteFails = false) :
    classify cfg now c = Classify.scrubbedCleanup ∧
    mutCalls (processComment cfg now c).2 = [Event.deleteCall c.id] ∧
    (processComment cfg now c).1.deleted = 1 ∧
    (processComment cfg now c).1.edited = 0 := by
  refine ⟨?_, ?_, ?_, ?_⟩ <;>
    simp [classify, processComment, mutCalls, hbody, hlive, hok, Event.isMut]

/-- A witness comment for C1: body already "F", created at the same instant
as `now` (age 0 days, far below the threshold), delete succeeds. -/
def cW1 : Comment := ⟨"w1", "F", 0, "sub", false, false⟩

/-- C1 witness: the hypotheses of `claim_C1` hold for `cW1` at `now = 0`
and the conclusion follows. -/
theorem claim_C1_witness :
    cW1.body = cfgLive.edit_text ∧ cfgLive.dry_run = false ∧
    cW1.deleteFails = false ∧
    (classify cfgLive 0 cW1 = Classify.scrubbedCleanup ∧
     mutCalls (processComment cfgLive 0 cW1).2 = [Event.deleteCall cW1.id] ∧
     (processComment cfgLive 0 cW1).1.deleted = 1 ∧
     (processComment cfgLive 0 cW1).1.edited = 0) :=
  ⟨rfl, rfl, rfl, claim_C1 cfgLive 0 cW1 rfl rfl rfl⟩

/-- C2: a comment older than the threshold whose body is not the
replacement text, the capability calls succeeding: in dry-run mode no
capability call is made and only `processed` increments; in live mode edit
is called with the replacement text and `edited` increments, delete is
called (and `deleted` increments) exactly when `delete_after_edit` is true,
and `processed` increments. -/
theorem claim_C2 (cfg : Config) (now : Int) (c : Comment)
    (hbody : c.body ≠ cfg.edit_text)
    (hage : cfg.days_threshold < ageDays now c.created_utc)
    (he : c.editFails = false) (hd : c.deleteFails = false) :
    (cfg.dry_run = true →
      (processComment cfg now c).1 = ⟨1, 0, 0, 0, 0⟩ ∧
      (processComment cfg now c).2 = []) ∧
    (cfg.dry_run = false →
      (processComment cfg now c).1 =
        (if cfg.delete_after_edit then (⟨1, 1, 1, 0, 0⟩ : Stats)
         else ⟨1, 1, 0, 0, 0⟩) ∧
      (processComment cfg now c).2 =
        (if cfg.delete_after_edit then
          [Event.editCall c.id cfg.edit_text, Event.sleep,
           Event.deleteCall c.id, Event.sleep]
         else [Event.editCall c.id cfg.edit_text, Event.sleep])) := by
  have hnle : ¬ ageDays now c.created_utc ≤ cfg.days_threshold := not_le.mpr hage
  constructor
  · intro hdry
    simp [processComment, hbody, hnle, hdry]
  · intro hlive
    by_cases hdel : cfg.delete_after_edit <;>
      simp [processComment, hbody, hnle, hlive, he, hd, hdel]

/-- A witness comment for C2: body "hello", created 45 days before the
witness instant, both capability calls succeed. -/
def cW2 : Comment := ⟨"w2", "hello", 0, "sub", false, false⟩

/-- C2 witness: the hypotheses of `claim_C2` hold for `cW2` at
`now = 3888000` (45 days) and the conclusion follows. -/
theorem claim_C2_witness :
    cW2.body ≠ cfgLive.edit_text ∧
    cfgLive.days_threshold < ageDays 3888000 cW2.created_utc ∧
    cW2.editFails = false ∧ cW2.deleteFails = false ∧
    ((cfgLive.dry_run = true →
      (processComment cfgLive 3888000 cW2).1 = ⟨1, 0, 0, 0, 0⟩ ∧
      (processComment cfgLive 3888000 cW2).2 = []) ∧
     (cfgLive.dry_run = false →
      (processComment cfgLive 3888000 cW2).1 =
        (if cfgLive.delete_after_edit then (⟨1, 1, 1, 0, 0⟩ : Stats)
         else ⟨1, 1, 0, 0, 0⟩) ∧
      (processComment cfgLive 3888000 cW2).2 =
        (if cfgLive.delete_after_edit then
          [Event.editCall cW2.id cfgLive.edit_text, Event.sleep,
           Event.deleteCall cW2.id, Event.sleep]
         else [Event.editCall cW2.id cfgLive.edit_text, Event.sleep]))) :=
  ⟨by decide, by decide, rfl, rfl,
   claim_C2 cfgLive 3888000 cW2 (by decide) (by decide) rfl rfl⟩

/-- C3: a comment at most `days_threshold` whole days old whose body is not
the replacement text is classified too-recent and skipped: `skipped`
increments, no other counter moves, and no capability call or pause is
emitted, whatever `dry_run` is. -/
theorem claim_C3 (cfg : Config) (now : Int) (c : Comment)
    (hbody : c.body ≠ cfg.edit_text)
    (hage : ageDays now c.created_utc ≤ cfg.days_threshold) :
    classify cfg now c = Classify.tooRecent ∧
    (processComment cfg now c).1 = ⟨0, 0, 0, 1, 0⟩ ∧
    (processComment cfg now c).2 = [] := by
  simp [classify, processComment, hbody, hage]

/-- A witness comment for C3: body "hi", created exactly 30 days (the
threshold) before the witness instant. -/
def cW3 : Comment := ⟨"w3", "hi", 0, "sub", false, false⟩

/-- C3 witness: the hypotheses of `claim_C3` hold for `cW3` at
`now = 2592000` (exactly 30 days, the boundary case) and the conclusion
follows. -/
theorem claim_C3_witness :
    cW3.body ≠ cfgLive.edit_text ∧
    ageDays 2592000 cW3.created_utc ≤ cfgLive.days_threshold ∧
    (classify cfgLive 2592000 cW3 = Classify.tooRecent ∧
     (processComment cfgLive 2592000 cW3).1 = ⟨0, 0, 0, 1, 0⟩ ∧
     (processComment cfgLive 2592000 cW3).2 = []) :=
  ⟨by decide, by decide, claim_C3 cfgLive 2592000 cW3 (by decide) (by decide)⟩

/-- Every comment increments exactly one of `skipped`, `processed`,
`failed`: the per-comment deltas sum to one on every path of the loop
body. -/
lemma processComment_one_of_three (cfg : Config) (now : Int) (c : Comment) :
    (processComment cfg now c).1.skipped + (processComment cfg now c).1.processed
      + (processComment cfg now c).1.failed = 1 := by
  unfold processComment
  repeat' split
  all_goals rfl

/-- In dry-run mode one loop iteration emits no event, moves neither
`edited` nor `deleted` nor `failed`, and increments exactly one of
`skipped`, `processed`. -/
lemma processComment_dry (cfg : Config) (now : Int) (c : Comment)
    (hdry : cfg.dry_run = true) :
    (processComment cfg now c).2 = [] ∧
    (processComment cfg now c).1.edited = 0 ∧
    (processComment cfg now c).1.deleted = 0 ∧
    (processComment cfg now c).1.failed = 0 ∧
    (processComment cfg now c).1.skipped + (processComment cfg now c).1.processed
      = 1 := by
  unfold processComment
  repeat' split
  all_goals simp_all

/-- Dry-run facts lifted to the whole loop: empty trace, zero `edited`,
`deleted`, `failed`, and `skipped + processed` equal to the number of
comments considered. -/
lemma processList_dry (cfg : Config) (now : Int) (hdry : cfg.dry_run = true) :
    ∀ l : List Comment,
      (processList cfg now l).2 = [] ∧
      (processList cfg now l).1.edited = 0 ∧
      (processList cfg now l).1.deleted = 0 ∧
      (processList cfg now l).1.failed = 0 ∧
      (processList cfg now l).1.skipped + (processList cfg now l).1.processed
        = l.length := by
  intro l
  induction l with
  | nil => exact ⟨rfl, rfl, rfl, rfl, rfl⟩
  | cons c rest ih =>
    have hc := processComment_dry cfg now c hdry
    simp only [processList, Stats.add, List.length_cons]
    refine ⟨?_, ?_, ?_, ?_, ?_⟩
    · simp [hc.1, ih.1]
    · simp [hc.2.1, ih.2.1]
    · simp [hc.2.2.1, ih.2.2.1]
    · simp [hc.2.2.2.1, ih.2.2.2.1]
    · have h1 := hc.2.2.2.2
      have h2 := ih.2.2.2.2
      omega

/-- C4: when `dry_run` is true the whole run emits no event at all (in
particular no mutating capability call on any classification path), while
the counters still account for every comment: `edited`, `deleted`,
`failed` stay zero and `skipped + processed` equals the number of fetched
comments. -/
theorem claim_C4 (cfg : Config) (now : Int) (fetched : List Comment)
    (hdry : cfg.dry_run = true) :
    (process_comments cfg now fetched).2 = [] ∧
    mutCalls (process_comments cfg now fetched).2 = [] ∧
    (process_comments cfg now fetched).1.skipped +
      (process_comments cfg now fetched).1.processed = fetched.length := by
  have h := processList_dry cfg now hdry fetched.reverse
  refine ⟨h.1, ?_, ?_⟩
  · show mutCalls (processList cfg now fetched.reverse).2 = []
    rw [h.1]
    rfl
  · show (processList cfg now fetched.reverse).1.skipped +
      (processList cfg now fetched.reverse).1.processed = fetched.length
    rw [h.2.2.2.2, List.length_reverse]

/-- C4 witness: a dry run over three comments (one already scrubbed, one
old, one recent) emits nothing and accounts for all three. -/
theorem claim_C4_witness :
    cfgDry.dry_run = true ∧
    ((process_comments cfgDry 3888000 [cW1, cW2, cW3]).2 = [] ∧
     mutCalls (process_comments cfgDry 3888000 [cW1, cW2, cW3]).2 = [] ∧
     (process_comments cfgDry 3888000 [cW1, cW2, cW3]).1.skipped +
       (process_comments cfgDry 3888000 [cW1, cW2, cW3]).1.processed
       = [cW1, cW2, cW3].length) :=
  ⟨rfl, claim_C4 cfgDry 3888000 [cW1, cW2, cW3] rfl⟩

/-- C6: for every run, every configuration and every fetched list (hence
also for the prefix a run considers before an early termination),
`skipped + processed + failed` equals the number of comments the loop
considered: every comment increments exactly one of the three. -/
theorem claim_C6 (cfg : Config) (now : Int) (fetched : List Comment) :
    (process_comments cfg now fetched).1.skipped +
      (process_comments cfg now fetched).1.processed +
      (process_comments cfg now fetched).1.failed = fetched.length := by
  have key : ∀ l : List Comment,
      (processList cfg now l).1.skipped + (processList cfg now l).1.processed
        + (processList cfg now l).1.failed = l.length := by
    intro l
    induction l with
    | nil => rfl
    | cons c rest ih =>
      have h1 := processComment_one_of_three cfg now c
      simp only [processList, Stats.add, List.length_cons]
      omega
  show (processList cfg now fetched.reverse).1.skipped +
    (processList cfg now fetched.reverse).1.processed +
    (processList cfg now fetched.reverse).1.failed = fetched.length
  rw [key fetched.reverse, List.length_reverse]

/-- C9: in any dry run `edited` and `deleted` end at zero, for every input
sequence; on the cleanup path in particular (body equal to the replacement
text) the would-be deletion increments `processed`, not `deleted`, and
emits nothing. -/
theorem claim_C9 (cfg : Config) (now : Int) (fetched : List Comment)
    (hdry : cfg.dry_run = true) :
    (process_comments cfg now fetched).1.edited = 0 ∧
    (process_comments cfg now fetched).1.deleted = 0 ∧
    (∀ c : Comment, c.body = cfg.edit_text →
      (processComment cfg now c).1 = ⟨1, 0, 0, 0, 0⟩ ∧
      (processComment cfg now c).2 = []) := by
  have h := processList_dry cfg now hdry fetched.reverse
  refine ⟨h.2.1, h.2.2.1, ?_⟩
  intro c hbody
  constructor <;> simp [processComment, hbody, hdry]

/-- C9 witness: the dry run over the three witness comments (the first of
which is on the cleanup path) ends with `edited = 0` and `deleted = 0`. -/
theorem claim_C9_witness :
    cfgDry.dry_run = true ∧
    ((process_comments cfgDry 3888000 [cW1, cW2, cW3]).1.edited = 0 ∧
     (process_comments cfgDry 3888000 [cW1, cW2, cW3]).1.deleted = 0 ∧
     (∀ c : Comment, c.body = cfgDry.edit_text →
       (processComment cfgDry 3888000 c).1 = ⟨1, 0, 0, 0, 0⟩ ∧
       (processComment cfgDry 3888000 c).2 = [])) :=
  ⟨rfl, claim_C9 cfgDry 3888000 [cW1, cW2, cW3] rfl⟩

/-- Witness comment for the C5 counterexample: old, unscrubbed, whose edit
call succeeds and whose delete call raises. -/
def cFailDel : Comment := ⟨"c5", "hello", 0, "sub", false, true⟩

/-- C5 counterexample: for `cFailDel` under the live configuration a
mutation raises (the delete after the successful edit; `failed` becomes 1),
yet `edited` was incremented for this very comment — refuting "the edited
and deleted counters are not incremented for X". -/
theorem claim_C5_counterexample :
    (processComment cfgLive 3888000 cFailDel).1.failed = 1 ∧
    ¬ ((processComment cfgLive 3888000 cFailDel).1.edited = 0) := by
  decide

/-- C5 amended: a comment whose mutation raises increments `failed` by
exactly one and does not increment `processed`; counters of the mutation
steps completed before the raise remain (if the edit itself raises nothing
else moves, if the delete raises after a successful edit then `edited` has
already been incremented, if the cleanup delete raises nothing else moves);
and the loop continues with the remaining comments. -/
theorem claim_C5_amended (cfg : Config) (now : Int) (c : Comment)
    (rest : List Comment) (hlive : cfg.dry_run = false) :
    (c.body ≠ cfg.edit_text → cfg.days_threshold < ageDays now c.created_utc →
      c.editFails = true →
      (processComment cfg now c).1 = ⟨0, 0, 0, 0, 1⟩) ∧
    (c.body ≠ cfg.edit_text → cfg.days_threshold < ageDays now c.created_utc →
      c.editFails = false → c.deleteFails = true →
      cfg.delete_after_edit = true →
      (processComment cfg now c).1 = ⟨0, 1, 0, 0, 1⟩) ∧
    (c.body = cfg.edit_text → c.deleteFails = true →
      (processComment cfg now c).1 = ⟨0, 0, 0, 0, 1⟩) ∧
    (processList cfg now (c :: rest)).1 =
      Stats.add (processComment cfg now c).1 (processList cfg now rest).1 := by
  refine ⟨?_, ?_, ?_, rfl⟩
  · intro hbody hage he
    simp [processComment, hbody, not_le.mpr hage, hlive, he]
  · intro hbody hage he hd hdel
    simp [processComment, hbody, not_le.mpr hage, hlive, he, hd, hdel]
  · intro hbody hd
    simp [processComment, hbody, hlive, hd]

/-- C5 witness: the amended statement instantiated at the live
configuration, `cFailDel` and a one-comment remainder. -/
theorem claim_C5_witness :
    cfgLive.dry_run = false ∧
    ((cFailDel.body ≠ cfgLive.edit_text →
      cfgLive.days_threshold < ageDays 3888000 cFailDel.created_utc →
      cFailDel.editFails = true →
      (processComment cfgLive 3888000 cFailDel).1 = ⟨0, 0, 0, 0, 1⟩) ∧
     (cFailDel.body ≠ cfgLive.edit_text →
      cfgLive.days_threshold < ageDays 3888000 cFailDel.created_utc →
      cFailDel.editFails = false → cFailDel.deleteFails = true →
      cfgLive.delete_after_edit = true →
      (processComment cfgLive 3888000 cFailDel).1 = ⟨0, 1, 0, 0, 1⟩) ∧
     (cFailDel.body = cfgLive.edit_text → cFailDel.deleteFails = true →
      (processComment cfgLive 3888000 cFailDel).1 = ⟨0, 0, 0, 0, 1⟩) ∧
     (processList cfgLive 3888000 (cFailDel :: [cW2])).1 =
       Stats.add (processComment cfgLive 3888000 cFailDel).1
         (processList cfgLive 3888000 [cW2]).1) :=
  ⟨rfl, claim_C5_amended cfgLive 3888000 cFailDel [cW2] rfl⟩

/-- C7: when the fetched list is most-recent-first (each timestamp at least
the following one's), the reversed processing order is oldest-first: a
strictly older comment sits at a strictly earlier position, hence is
classified before any strictly newer one. -/
theorem claim_C7 (fetched : List Comment)
    (hsorted : List.Pairwise
      (fun a b : Comment => b.created_utc ≤ a.created_utc) fetched) :
    ∀ i j : Fin (processOrder fetched).length,
      ((processOrder fetched).get i).created_utc <
        ((processOrder fetched).get j).created_utc → i < j := by
  intro i j hlt
  have hrev : List.Pairwise
      (fun a b : Comment => a.created_utc ≤ b.created_utc)
      (processOrder fetched) := by
    rw [processOrder, List.pairwise_reverse]
    exact hsorted
  by_contra hij
  rcases lt_or_eq_of_le (not_lt.mp hij) with hj | hj
  · exact absurd (List.pairwise_iff_get.mp hrev j i hj) (not_le.mpr hlt)
  · rw [hj] at hlt
    exact lt_irrefl _ hlt

/-- An old witness comment (timestamp 100) for C7. -/
def cOld : Comment := ⟨"old", "x", 100, "sub", false, false⟩

/-- A newer witness comment (timestamp 200) for C7. -/
def cNew : Comment := ⟨"new", "y", 200, "sub", false, false⟩

/-- C7 witness: the list `[cNew, cOld]` is most-recent-first, and applying
the theorem at positions 0 and 1 of the processing order (where the older
comment's timestamp is smaller) yields position 0 before position 1. -/
theorem claim_C7_witness :
    List.Pairwise (fun a b : Comment => b.created_utc ≤ a.created_utc)
      [cNew, cOld] ∧
    (⟨0, by decide⟩ : Fin (processOrder [cNew, cOld]).length) < ⟨1, by decide⟩ :=
  ⟨by decide,
   claim_C7 [cNew, cOld] (by decide) ⟨0, by decide⟩ ⟨1, by decide⟩ (by decide)⟩

/-- Concatenation preserves pause-after-mutation when the first trace is
empty or ends with the pause. -/
lemma sleepAfterMut_append : ∀ t1 t2 : List Event,
    sleepAfterMut t1 = true → endsQuiet t1 = true → sleepAfterMut t2 = true →
    sleepAfterMut (t1 ++ t2) = true := by
  intro t1
  induction t1 with
  | nil => intro t2 _ _ h2; simpa using h2
  | cons e rest ih =>
    intro t2 h1 hq h2
    cases rest with
    | nil =>
      cases e with
      | editCall a b => simp [endsQuiet, Event.isSleep] at hq
      | deleteCall a => simp [endsQuiet, Event.isSleep] at hq
      | sleep => simp [sleepAfterMut, nextIsSleep, Event.isMut, h2]
    | cons e2 rest2 =>
      rw [show sleepAfterMut (e :: e2 :: rest2)
            = (((!e.isMut) || nextIsSleep (e2 :: rest2))
                && sleepAfterMut (e2 :: rest2)) from rfl,
          Bool.and_eq_true] at h1
      have hq2 : endsQuiet (e2 :: rest2) = true := hq
      have h3 := ih t2 h1.2 hq2 h2
      rw [List.cons_append,
          show sleepAfterMut (e :: ((e2 :: rest2) ++ t2))
            = (((!e.isMut) || nextIsSleep ((e2 :: rest2) ++ t2))
                && sleepAfterMut ((e2 :: rest2) ++ t2)) from rfl,
          Bool.and_eq_true]
      exact ⟨h1.1, h3⟩

/-- Appending a nonempty trace makes its ending the ending of the whole. -/
lemma endsQuiet_append_cons : ∀ (t1 : List Event) (e2 : Event)
    (r2 : List Event), endsQuiet (t1 ++ e2 :: r2) = endsQuiet (e2 :: r2) := by
  intro t1
  induction t1 with
  | nil => intro e2 r2; rfl
  | cons e rest ih =>
    intro e2 r2
    cases rest with
    | nil => rfl
    | cons f fs => exact ih e2 r2

/-- One loop iteration whose capability calls all succeed yields a trace in
which every mutating call is immediately followed by the pause, and which
is empty or ends with the pause. -/
lemma processComment_trace_ok (cfg : Config) (now : Int) (c : Comment)
    (he : c.editFails = false) (hd : c.deleteFails = false) :
    sleepAfterMut (processComment cfg now c).2 = true ∧
    endsQuiet (processComment cfg now c).2 = true := by
  unfold processComment
  repeat' split
  all_goals simp_all [sleepAfterMut, nextIsSleep, endsQuiet, Event.isMut,
    Event.isSleep]

/-- The loop over comments whose capability calls all succeed yields a
trace with every mutating call immediately followed by the pause, and
empty or pause-terminated. -/
lemma processList_pause (cfg : Config) (now : Int) :
    ∀ l : List Comment,
      (∀ c ∈ l, c.editFails = false ∧ c.deleteFails = false) →
      sleepAfterMut (processList cfg now l).2 = true ∧
      endsQuiet (processList cfg now l).2 = true := by
  intro l
  induction l with
  | nil => intro _; exact ⟨rfl, rfl⟩
  | cons c rest ih =>
    intro hok
    have hcOk := hok c (List.mem_cons_self c rest)
    have hc := processComment_trace_ok cfg now c hcOk.1 hcOk.2
    have hr := ih (fun x hx => hok x (List.mem_cons_of_mem c hx))
    constructor
    · exact sleepAfterMut_append _ _ hc.1 hc.2 hr.1
    · show endsQuiet ((processComment cfg now c).2
        ++ (processList cfg now rest).2) = true
      cases h2 : (processList cfg now rest).2 with
      | nil => rw [List.append_nil]; exact hc.2
      | cons e2 r2 =>
        rw [h2] at hr
        rw [endsQuiet_append_cons]
        exact hr.2

/-- C8: in a run where no capability call raises, every mutating call
(edit or delete, on the cleanup path as on the qualifying path) is
immediately followed in the trace by the one-second pause; in dry-run mode
the trace is empty so the property holds vacuously. -/
theorem claim_C8 (cfg : Config) (now : Int) (fetched : List Comment)
    (hok : ∀ c ∈ fetched, c.editFails = false ∧ c.deleteFails = false) :
    sleepAfterMut (process_comments cfg now fetched).2 = true := by
  have hrev : ∀ c ∈ processOrder fetched,
      c.editFails = false ∧ c.deleteFails = false := by
    intro c hc
    exact hok c (List.mem_reverse.mp hc)
  exact (processList_pause cfg now (processOrder fetched) hrev).1

/-- C8 witness: the live run over the three witness comments (a cleanup
delete, an edit plus delete, a skip) has every mutating call immediately
followed by the pause. -/
theorem claim_C8_witness :
    (∀ c ∈ [cW1, cW2, cW3], c.editFails = false ∧ c.deleteFails = false) ∧
    sleepAfterMut (process_comments cfgLive 3888000 [cW1, cW2, cW3]).2
      = true :=
  ⟨by decide, claim_C8 cfgLive 3888000 [cW1, cW2, cW3] (by decide)⟩

/-- C10: the delete-after-edit and dry-run prompts treat any answer whose
stripped, lowercased form differs from the single character "n" as yes; in
particular the answer "no" sets `delete_after_edit` to true and the answer
"no" sets `dry_run` to true. -/
theorem claim_C10 :
    (∀ s : String,
      parseDeleteAfterEdit s = true ↔ pyLower (pyStrip s.data) ≠ ['n']) ∧
    (∀ s : String,
      parseDryRun s = true ↔ pyLower (pyStrip s.data) ≠ ['n']) ∧
    parseDeleteAfterEdit "no" = true ∧ parseDryRun "no" = true := by
  refine ⟨fun s => ?_, fun s => ?_, ?_, ?_⟩
  · simp [parseDeleteAfterEdit, bne_iff_ne]
  · simp [parseDryRun, bne_iff_ne]
  · decide
  · decide
